import Mathlib

/-!
# ExpressionTree: expression nodes, evaluation and symbolic differentiation

A shallow embedding of `classes.hpp` and of the tree and symbol table built by `main`.

* The class hierarchy under `ExprNode` (`ConstantNode`, `VariableNode`, `AddNode`,
  `SubNode`, `MulNode`, `DivNode`) becomes one inductive type with one constructor per
  class; the virtual methods `eval`, `derivative` and `print` become functions by cases.
* The C++ type `double` is the type parameter `α`. `eval` only uses the four operators
  `+ - * /` of `α`, `derivative` only the two literals `0.0` and `1.0`; statements that
  hold for every `α` therefore do not depend on how the machine rounds. Statements about
  numbers are made over `ℚ` or `ℝ`, that is for exact arithmetic, and over `Double rnd`,
  the IEEE 754 values with their signed zeros, infinities and NaN, where these matter.
* The static member `VariableNode::symbol_table` (a `std::map<std::string, double>`) is
  passed explicitly as a list of key/value pairs with unique keys.
* `VariableNode::eval` dereferences the iterator returned by `symbol_table.find(name)`
  without comparing it with `end()`. A run that dereferences the past-the-end iterator
  has no defined result; `eval` returns `none` for it and `some x` for a run that
  returns the double `x`. The source raises no exception and has no error value.
-/

namespace ExpressionTree

/-- The node classes of `classes.hpp`; `α` stands for `double`. -/
inductive ExprNode (α : Type) : Type
  | ConstantNode (value : α) : ExprNode α
  | VariableNode (name : String) : ExprNode α
  | AddNode (left right : ExprNode α) : ExprNode α
  | SubNode (left right : ExprNode α) : ExprNode α
  | MulNode (left right : ExprNode α) : ExprNode α
  | DivNode (left right : ExprNode α) : ExprNode α
  deriving DecidableEq

open ExprNode

/-- The type of `VariableNode::symbol_table`: a finite map from names to values, kept as
a list of key/value pairs. `set_value` never adds a key that is already there, so the
tables built from the empty one hold every key at most once. -/
abbrev SymbolTable (α : Type) : Type := List (String × α)

/-- The lookup `symbol_table.find(name)`, giving the value stored under the key; `none`
stands for the iterator `end()`. -/
def find {α : Type} : SymbolTable α → String → Option α
  | [], _ => none
  | (k, x) :: rest, name => if k = name then some x else find rest name

/-- The assignment `symbol_table[name] = value` of `VariableNode::set_value`: overwrite
the value of an existing key, or add the key. -/
def set_value {α : Type} (name : String) (value : α) : SymbolTable α → SymbolTable α
  | [] => [(name, value)]
  | (k, x) :: rest =>
    if k = name then (k, value) :: rest else (k, x) :: set_value name value rest

/-- The virtual method `eval`, with the symbol table as an explicit argument. -/
def eval {α : Type} [Add α] [Sub α] [Mul α] [Div α] (symbol_table : SymbolTable α) :
    ExprNode α → Option α
  | ConstantNode value => some value
  | VariableNode name => find symbol_table name
  | AddNode left right =>
    match eval symbol_table left, eval symbol_table right with
    | some a, some b => some (a + b)
    | _, _ => none
  | SubNode left right =>
    match eval symbol_table left, eval symbol_table right with
    | some a, some b => some (a - b)
    | _, _ => none
  | MulNode left right =>
    match eval symbol_table left, eval symbol_table right with
    | some a, some b => some (a * b)
    | _, _ => none
  | DivNode left right =>
    match eval symbol_table right with
    | some denominator =>
      match eval symbol_table left with
      | some a => some (a / denominator)
      | none => none
    | none => none

/-- The virtual method `derivative`. -/
def derivative {α : Type} [Zero α] [One α] : ExprNode α → String → ExprNode α
  | ConstantNode _, _ => ConstantNode 0
  | VariableNode name, var => if var = name then ConstantNode 1 else ConstantNode 0
  | AddNode left right, var => AddNode (derivative left var) (derivative right var)
  | SubNode left right, var => SubNode (derivative left var) (derivative right var)
  | MulNode left right, var =>
    AddNode (MulNode (derivative left var) right) (MulNode left (derivative right var))
  | DivNode left right, var =>
    DivNode
      (SubNode (MulNode (derivative left var) right) (MulNode left (derivative right var)))
      (MulNode right right)

/-- The names of the `VariableNode`s of a tree, left to right. -/
def var_names {α : Type} : ExprNode α → List String
  | ConstantNode _ => []
  | VariableNode name => [name]
  | AddNode left right => var_names left ++ var_names right
  | SubNode left right => var_names left ++ var_names right
  | MulNode left right => var_names left ++ var_names right
  | DivNode left right => var_names left ++ var_names right

/-- Every `DivNode` of the tree has a right operand that evaluates, under the given symbol
table, to a value different from zero. -/
def denominators_nonzero {α : Type} [Add α] [Sub α] [Mul α] [Div α] [Zero α]
    (symbol_table : SymbolTable α) : ExprNode α → Prop
  | ConstantNode _ => True
  | VariableNode _ => True
  | AddNode left right =>
    denominators_nonzero symbol_table left ∧ denominators_nonzero symbol_table right
  | SubNode left right =>
    denominators_nonzero symbol_table left ∧ denominators_nonzero symbol_table right
  | MulNode left right =>
    denominators_nonzero symbol_table left ∧ denominators_nonzero symbol_table right
  | DivNode left right =>
    denominators_nonzero symbol_table left ∧ denominators_nonzero symbol_table right ∧
      ∃ b, eval symbol_table right = some b ∧ b ≠ 0

/-- The virtual method `print`, returning the text it sends to the stream. The text that
`os << value` produces for a `double` comes from the standard library, not from this
program; it is the parameter `fmt`. -/
def print {α : Type} (fmt : α → String) : ExprNode α → String
  | ConstantNode value => fmt value
  | VariableNode name => name
  | AddNode left right => "(" ++ print fmt left ++ "+" ++ print fmt right ++ ")"
  | SubNode left right => "(" ++ print fmt left ++ "-" ++ print fmt right ++ ")"
  | MulNode left right => "(" ++ print fmt left ++ "*" ++ print fmt right ++ ")"
  | DivNode left right => "(" ++ print fmt left ++ "*" ++ print fmt right ++ ")"

/-- The symbol table of `main` after its three calls of `set_value`. -/
def main_symbol_table (α : Type) [OfScientific α] : SymbolTable α :=
  set_value "Zebra" 3.0 (set_value "Yellow" 2.0 (set_value "Xray" 1.0 []))

/-- The tree `node` built by `main`. -/
def main_node (α : Type) [OfScientific α] : ExprNode α :=
  AddNode (MulNode (ConstantNode 2.3) (VariableNode "Xray"))
    (MulNode (VariableNode "Yellow") (SubNode (VariableNode "Zebra") (VariableNode "Xray")))

/-- Number of nodes of a tree. -/
def size {α : Type} : ExprNode α → Nat
  | ConstantNode _ => 1
  | VariableNode _ => 1
  | AddNode left right => 1 + size left + size right
  | SubNode left right => 1 + size left + size right
  | MulNode left right => 1 + size left + size right
  | DivNode left right => 1 + size left + size right

/-- Depth of a tree: `0` for a leaf, one more than the deeper operand for a binary node. -/
def depth {α : Type} : ExprNode α → Nat
  | ConstantNode _ => 0
  | VariableNode _ => 0
  | AddNode left right => 1 + max (depth left) (depth right)
  | SubNode left right => 1 + max (depth left) (depth right)
  | MulNode left right => 1 + max (depth left) (depth right)
  | DivNode left right => 1 + max (depth left) (depth right)

/-- The tree has a `MulNode` or a `DivNode`. -/
def has_MulNode_or_DivNode {α : Type} : ExprNode α → Bool
  | ConstantNode _ => false
  | VariableNode _ => false
  | AddNode left right => has_MulNode_or_DivNode left || has_MulNode_or_DivNode right
  | SubNode left right => has_MulNode_or_DivNode left || has_MulNode_or_DivNode right
  | MulNode _ _ => true
  | DivNode _ _ => true

/-- The tree has a `DivNode`. -/
def has_DivNode {α : Type} : ExprNode α → Bool
  | ConstantNode _ => false
  | VariableNode _ => false
  | AddNode left right => has_DivNode left || has_DivNode right
  | SubNode left right => has_DivNode left || has_DivNode right
  | MulNode left right => has_DivNode left || has_DivNode right
  | DivNode _ _ => true

/-- The left-nested chain of `k` `DivNode`s over the leaf `VariableNode "x"`:
`(((x / x) / x) ... / x)`. -/
def div_chain {α : Type} : Nat → ExprNode α
  | 0 => VariableNode "x"
  | k + 1 => DivNode (div_chain k) (VariableNode "x")

/-- One pass over a text, counting parentheses: `level` is the number of parentheses that
are open, `deepest` the largest level seen so far. The result is `none` when a closing
parenthesis has no opening one or when a parenthesis is left open at the end, and the
largest level otherwise. -/
def scan_parens : List Char → Nat → Nat → Option Nat
  | [], level, deepest => if level = 0 then some deepest else none
  | c :: cs, level, deepest =>
    if c = '(' then scan_parens cs (level + 1) (max deepest (level + 1))
    else if c = ')' then
      match level with
      | 0 => none
      | k + 1 => scan_parens cs k deepest
    else scan_parens cs level deepest

/-- The maximum nesting level of the parentheses of a text, when they are balanced. -/
def nesting (s : String) : Option Nat := scan_parens s.data 0 0

/-- The text has no parenthesis. -/
def paren_free (s : String) : Prop := ∀ c ∈ s.data, c ≠ '(' ∧ c ≠ ')'

/-- No leaf of the tree prints a parenthesis: neither a variable name nor the text of a
constant has one. -/
def leaves_paren_free {α : Type} (fmt : α → String) : ExprNode α → Prop
  | ConstantNode value => paren_free (fmt value)
  | VariableNode name => paren_free name
  | AddNode left right => leaves_paren_free fmt left ∧ leaves_paren_free fmt right
  | SubNode left right => leaves_paren_free fmt left ∧ leaves_paren_free fmt right
  | MulNode left right => leaves_paren_free fmt left ∧ leaves_paren_free fmt right
  | DivNode left right => leaves_paren_free fmt left ∧ leaves_paren_free fmt right

/-- The values of the C++ type `double` under IEEE 754: a finite number given by its sign
and its magnitude (so `0.0` and `-0.0` are two values), an infinity with its sign, or NaN.
The parameter `rnd` is the rounding of the machine: it sends the exact magnitude of a
result to the representable magnitude that the machine returns, or to `none` when the
result overflows to an infinity. -/
inductive Double (rnd : NNRat → Option NNRat) : Type
  | finite (negative : Bool) (magnitude : NNRat) : Double rnd
  | inf (negative : Bool) : Double rnd
  | nan : Double rnd
  deriving DecidableEq

/-- The `double` with the given sign that the machine returns for a result of exact
magnitude `m`. -/
def Double.round {rnd : NNRat → Option NNRat} (negative : Bool) (m : NNRat) : Double rnd :=
  match rnd m with
  | some r => Double.finite negative r
  | none => Double.inf negative

/-- The unary minus of `double`: it flips the sign. -/
def Double.neg {rnd : NNRat → Option NNRat} : Double rnd → Double rnd
  | Double.finite s m => Double.finite (!s) m
  | Double.inf s => Double.inf (!s)
  | Double.nan => Double.nan

/-- The operator `+` of `double`. Infinities of opposite sign add to NaN; an exact sum of
zero is `0.0`, except that `-0.0 + -0.0` is `-0.0`. -/
def Double.add {rnd : NNRat → Option NNRat} : Double rnd → Double rnd → Double rnd
  | Double.nan, Double.nan => Double.nan
  | Double.nan, Double.inf _ => Double.nan
  | Double.nan, Double.finite _ _ => Double.nan
  | Double.inf _, Double.nan => Double.nan
  | Double.finite _ _, Double.nan => Double.nan
  | Double.inf s1, Double.inf s2 => if s1 = s2 then Double.inf s1 else Double.nan
  | Double.inf s1, Double.finite _ _ => Double.inf s1
  | Double.finite _ _, Double.inf s2 => Double.inf s2
  | Double.finite s1 m1, Double.finite s2 m2 =>
    if s1 = s2 then Double.round s1 (m1 + m2)
    else if m1 = m2 then Double.finite false 0
    else if m2 < m1 then Double.round s1 (m1 - m2)
    else Double.round s2 (m2 - m1)

/-- The operator `-` of `double`: the sum with the negated right operand. -/
def Double.sub {rnd : NNRat → Option NNRat} (a b : Double rnd) : Double rnd :=
  Double.add a (Double.neg b)

/-- The operator `*` of `double`. The sign of the result is the exclusive or of the signs;
a zero times an infinity is NaN. -/
def Double.mul {rnd : NNRat → Option NNRat} : Double rnd → Double rnd → Double rnd
  | Double.nan, Double.nan => Double.nan
  | Double.nan, Double.inf _ => Double.nan
  | Double.nan, Double.finite _ _ => Double.nan
  | Double.inf _, Double.nan => Double.nan
  | Double.finite _ _, Double.nan => Double.nan
  | Double.inf s1, Double.inf s2 => Double.inf (s1 != s2)
  | Double.inf s1, Double.finite s2 m2 =>
    if m2 = 0 then Double.nan else Double.inf (s1 != s2)
  | Double.finite s1 m1, Double.inf s2 =>
    if m1 = 0 then Double.nan else Double.inf (s1 != s2)
  | Double.finite s1 m1, Double.finite s2 m2 => Double.round (s1 != s2) (m1 * m2)

/-- The operator `/` of `double`. A zero divided by a zero and an infinity divided by an
infinity are NaN; a non-zero number divided by a zero is an infinity. -/
def Double.div {rnd : NNRat → Option NNRat} : Double rnd → Double rnd → Double rnd
  | Double.nan, Double.nan => Double.nan
  | Double.nan, Double.inf _ => Double.nan
  | Double.nan, Double.finite _ _ => Double.nan
  | Double.inf _, Double.nan => Double.nan
  | Double.finite _ _, Double.nan => Double.nan
  | Double.inf _, Double.inf _ => Double.nan
  | Double.inf s1, Double.finite s2 _ => Double.inf (s1 != s2)
  | Double.finite s1 _, Double.inf s2 => Double.finite (s1 != s2) 0
  | Double.finite s1 m1, Double.finite s2 m2 =>
    if m2 = 0 then (if m1 = 0 then Double.nan else Double.inf (s1 != s2))
    else Double.round (s1 != s2) (m1 / m2)

instance instZeroDouble {rnd : NNRat → Option NNRat} : Zero (Double rnd) :=
  ⟨Double.finite false 0⟩

instance instOneDouble {rnd : NNRat → Option NNRat} : One (Double rnd) :=
  ⟨Double.finite false 1⟩

instance instAddDouble {rnd : NNRat → Option NNRat} : Add (Double rnd) := ⟨Double.add⟩

instance instSubDouble {rnd : NNRat → Option NNRat} : Sub (Double rnd) := ⟨Double.sub⟩

instance instMulDouble {rnd : NNRat → Option NNRat} : Mul (Double rnd) := ⟨Double.mul⟩

instance instDivDouble {rnd : NNRat → Option NNRat} : Div (Double rnd) := ⟨Double.div⟩

/-- C2: the derivative of `DivNode l r` is exactly the quotient-rule tree
`DivNode (SubNode (MulNode l' r) (MulNode l r')) (MulNode r r)`, where `l'` and `r'` are
the derivatives of `l` and `r`; the denominator is `r * r`. -/
theorem derivative_DivNode {α : Type} [Zero α] [One α] (l r : ExprNode α) (var : String) :
    derivative (DivNode l r) var =
      DivNode (SubNode (MulNode (derivative l var) r) (MulNode l (derivative r var)))
        (MulNode r r) := by
  rw [derivative]

/-- C3: sum rule, difference rule and product rule as tree equalities; in the product
rule the operands `l` and `r` themselves are placed in the result. -/
theorem derivative_AddNode_SubNode_MulNode {α : Type} [Zero α] [One α] (l r : ExprNode α)
    (var : String) :
    derivative (AddNode l r) var = AddNode (derivative l var) (derivative r var) ∧
    derivative (SubNode l r) var = SubNode (derivative l var) (derivative r var) ∧
    derivative (MulNode l r) var =
      AddNode (MulNode (derivative l var) r) (MulNode l (derivative r var)) := by
  refine ⟨?_, ?_, ?_⟩ <;> rw [derivative]

/-- C4: the derivative of a constant is the constant `0.0`; the derivative of the variable
`name` with respect to `var` is the constant `1.0` when the two strings are equal and the
constant `0.0` otherwise. Names that differ only in case are different names. -/
theorem derivative_leaf {α : Type} [Zero α] [One α] (c : α) (name var : String) :
    derivative (ConstantNode c) var = ConstantNode 0 ∧
    derivative (VariableNode name : ExprNode α) var =
      (if name = var then ConstantNode 1 else ConstantNode 0) ∧
    derivative (VariableNode "x" : ExprNode α) "X" = ConstantNode 0 := by
  refine ⟨by rw [derivative], ?_, ?_⟩
  · rw [derivative]
    by_cases h : name = var
    · simp [h]
    · have h2 : ¬ var = name := fun e => h e.symm
      simp [h, h2]
  · rw [derivative]
    simp

/-! ## Lookup and evaluation -/

theorem find_set_value {α : Type} (name : String) (value : α) (t : SymbolTable α)
    (n : String) :
    find (set_value name value t) n = if n = name then some value else find t n := by
  induction t with
  | nil =>
    by_cases h : n = name
    · simp [set_value, find, h]
    · have h2 : ¬ name = n := fun e => h e.symm
      simp [set_value, find, h, h2]
  | cons p rest ih =>
    obtain ⟨k, y⟩ := p
    by_cases hk : k = name
    · subst hk
      by_cases hn : n = k
      · simp [set_value, find, hn]
      · have h2 : ¬ k = n := fun e => hn e.symm
        simp [set_value, find, hn, h2]
    · by_cases hn : n = name
      · subst hn
        simp [set_value, find, hk, ih]
      · by_cases hkn : k = n
        · simp [set_value, find, hk, hn, hkn]
        · simp [set_value, find, hk, hn, hkn, ih]

theorem eval_AddNode_some {α : Type} [Add α] [Sub α] [Mul α] [Div α] {t : SymbolTable α}
    {l r : ExprNode α} {a b : α} (hl : eval t l = some a) (hr : eval t r = some b) :
    eval t (AddNode l r) = some (a + b) := by
  simp [eval, hl, hr]

theorem eval_SubNode_some {α : Type} [Add α] [Sub α] [Mul α] [Div α] {t : SymbolTable α}
    {l r : ExprNode α} {a b : α} (hl : eval t l = some a) (hr : eval t r = some b) :
    eval t (SubNode l r) = some (a - b) := by
  simp [eval, hl, hr]

theorem eval_MulNode_some {α : Type} [Add α] [Sub α] [Mul α] [Div α] {t : SymbolTable α}
    {l r : ExprNode α} {a b : α} (hl : eval t l = some a) (hr : eval t r = some b) :
    eval t (MulNode l r) = some (a * b) := by
  simp [eval, hl, hr]

theorem eval_DivNode_some {α : Type} [Add α] [Sub α] [Mul α] [Div α] {t : SymbolTable α}
    {l r : ExprNode α} {a b : α} (hl : eval t l = some a) (hr : eval t r = some b) :
    eval t (DivNode l r) = some (a / b) := by
  simp [eval, hl, hr]

/-- A tree all of whose variables are in the symbol table evaluates to a number. -/
theorem eval_some_of_bound {α : Type} [Add α] [Sub α] [Mul α] [Div α] (t : SymbolTable α)
    (e : ExprNode α) (hb : ∀ n ∈ var_names e, ∃ x, find t n = some x) :
    ∃ a, eval t e = some a := by
  induction e with
  | ConstantNode c => exact ⟨c, by simp [eval]⟩
  | VariableNode n =>
    obtain ⟨x, hx⟩ := hb n (by simp [var_names])
    exact ⟨x, by simp [eval, hx]⟩
  | AddNode l r ihl ihr =>
    obtain ⟨a, ha⟩ := ihl (fun n hn => hb n (by simp [var_names, hn]))
    obtain ⟨b, hb2⟩ := ihr (fun n hn => hb n (by simp [var_names, hn]))
    exact ⟨_, eval_AddNode_some ha hb2⟩
  | SubNode l r ihl ihr =>
    obtain ⟨a, ha⟩ := ihl (fun n hn => hb n (by simp [var_names, hn]))
    obtain ⟨b, hb2⟩ := ihr (fun n hn => hb n (by simp [var_names, hn]))
    exact ⟨_, eval_SubNode_some ha hb2⟩
  | MulNode l r ihl ihr =>
    obtain ⟨a, ha⟩ := ihl (fun n hn => hb n (by simp [var_names, hn]))
    obtain ⟨b, hb2⟩ := ihr (fun n hn => hb n (by simp [var_names, hn]))
    exact ⟨_, eval_MulNode_some ha hb2⟩
  | DivNode l r ihl ihr =>
    obtain ⟨a, ha⟩ := ihl (fun n hn => hb n (by simp [var_names, hn]))
    obtain ⟨b, hb2⟩ := ihr (fun n hn => hb n (by simp [var_names, hn]))
    exact ⟨_, eval_DivNode_some ha hb2⟩

/-- Evaluation only depends on the values the symbol table gives to the variables of the
tree. -/
theorem eval_congr {α : Type} [Add α] [Sub α] [Mul α] [Div α] (t u : SymbolTable α)
    (e : ExprNode α) (h : ∀ n ∈ var_names e, find t n = find u n) :
    eval t e = eval u e := by
  induction e with
  | ConstantNode c => simp [eval]
  | VariableNode n => simpa [eval] using h n (by simp [var_names])
  | AddNode l r ihl ihr =>
    have hl := ihl (fun n hn => h n (by simp [var_names, hn]))
    have hr := ihr (fun n hn => h n (by simp [var_names, hn]))
    simp [eval, hl, hr]
  | SubNode l r ihl ihr =>
    have hl := ihl (fun n hn => h n (by simp [var_names, hn]))
    have hr := ihr (fun n hn => h n (by simp [var_names, hn]))
    simp [eval, hl, hr]
  | MulNode l r ihl ihr =>
    have hl := ihl (fun n hn => h n (by simp [var_names, hn]))
    have hr := ihr (fun n hn => h n (by simp [var_names, hn]))
    simp [eval, hl, hr]
  | DivNode l r ihl ihr =>
    have hl := ihl (fun n hn => h n (by simp [var_names, hn]))
    have hr := ihr (fun n hn => h n (by simp [var_names, hn]))
    simp [eval, hl, hr]

/-- The run of `eval` dereferences `end()` exactly when some variable of the tree is
missing from the symbol table. -/
theorem eval_eq_none_iff {α : Type} [Add α] [Sub α] [Mul α] [Div α] (t : SymbolTable α)
    (e : ExprNode α) :
    eval t e = none ↔ ∃ n ∈ var_names e, find t n = none := by
  constructor
  · intro h
    by_contra hc
    have hb : ∀ n ∈ var_names e, ∃ x, find t n = some x := by
      intro n hn
      cases hf : find t n with
      | none => exact absurd ⟨n, hn, hf⟩ hc
      | some x => exact ⟨x, rfl⟩
    obtain ⟨a, ha⟩ := eval_some_of_bound t e hb
    rw [h] at ha
    exact Option.noConfusion ha
  · rintro ⟨n, hn, hf⟩
    induction e with
    | ConstantNode c => simp [var_names] at hn
    | VariableNode m =>
      simp [var_names] at hn
      subst hn
      simpa [eval] using hf
    | AddNode l r ihl ihr =>
      rcases List.mem_append.mp hn with h | h
      · simp [eval, ihl h]
      · simp [eval, ihr h]
    | SubNode l r ihl ihr =>
      rcases List.mem_append.mp hn with h | h
      · simp [eval, ihl h]
      · simp [eval, ihr h]
    | MulNode l r ihl ihr =>
      rcases List.mem_append.mp hn with h | h
      · simp [eval, ihl h]
      · simp [eval, ihr h]
    | DivNode l r ihl ihr =>
      rcases List.mem_append.mp hn with h | h
      · simp [eval, ihl h]
        cases eval t r <;> simp
      · simp [eval, ihr h]

/-! ## Evaluation of variables and of the binary nodes -/

/-- C5: evaluating `VariableNode "Q"` under the empty symbol table. The lookup gives
`end()` and the run dereferences it: it has no defined result, and no `UnboundVariable`
error is produced. Under a table that binds `"Q"` to `5` the run returns `5`. -/
theorem eval_VariableNode_unbound :
    find ([] : SymbolTable ℚ) "Q" = none ∧
    eval ([] : SymbolTable ℚ) (VariableNode "Q") = none ∧
    eval [("Q", (5 : ℚ))] (VariableNode "Q") = some 5 := by
  simp [eval, find]

/-- C6: evaluating `AddNode (ConstantNode 1) (VariableNode "Q")` under the empty symbol
table. The right operand dereferences `end()`, so the run of the whole tree has no defined
result; nothing in `AddNode::eval` or `VariableNode::eval` reports the missing name. -/
theorem eval_AddNode_unbound :
    eval ([] : SymbolTable ℚ) (AddNode (ConstantNode 1) (VariableNode "Q")) = none := by
  simp [eval, find]

/-- C7: when both operands evaluate to numbers `a` and `b`, the four binary nodes evaluate
to `a + b`, `a - b`, `a * b` and `a / b`. Nothing is assumed about `b`: when `b` is zero
the `DivNode` still returns the result of the division of `α`. -/
theorem eval_binary {α : Type} [Add α] [Sub α] [Mul α] [Div α] (t : SymbolTable α)
    (l r : ExprNode α) (a b : α) (hl : eval t l = some a) (hr : eval t r = some b) :
    eval t (AddNode l r) = some (a + b) ∧ eval t (SubNode l r) = some (a - b) ∧
    eval t (MulNode l r) = some (a * b) ∧ eval t (DivNode l r) = some (a / b) :=
  ⟨eval_AddNode_some hl hr, eval_SubNode_some hl hr, eval_MulNode_some hl hr,
    eval_DivNode_some hl hr⟩

theorem eval_binary_witness :
    (eval [("Q", (3 : ℚ))] (VariableNode "Q") = some 3 ∧
      eval [("Q", (3 : ℚ))] (ConstantNode 0) = some 0) ∧
    (eval [("Q", (3 : ℚ))] (AddNode (VariableNode "Q") (ConstantNode 0)) = some (3 + 0) ∧
      eval [("Q", (3 : ℚ))] (SubNode (VariableNode "Q") (ConstantNode 0)) = some (3 - 0) ∧
      eval [("Q", (3 : ℚ))] (MulNode (VariableNode "Q") (ConstantNode 0)) = some (3 * 0) ∧
      eval [("Q", (3 : ℚ))] (DivNode (VariableNode "Q") (ConstantNode 0)) = some (3 / 0)) :=
  ⟨⟨by simp [eval, find], by simp [eval]⟩,
    eval_binary [("Q", (3 : ℚ))] (VariableNode "Q") (ConstantNode 0) 3 0
      (by simp [eval, find]) (by simp [eval])⟩

/-! ## Variables of the derivative -/

/-- The derivative only mentions variables of the tree it is taken of. -/
theorem mem_var_names_of_mem_derivative {α : Type} [Zero α] [One α] (e : ExprNode α)
    (v n : String) : n ∈ var_names (derivative e v) → n ∈ var_names e := by
  induction e with
  | ConstantNode c => simp [derivative, var_names]
  | VariableNode m =>
    by_cases h : v = m <;> simp [derivative, var_names, h]
  | AddNode l r ihl ihr =>
    simp only [derivative, var_names, List.mem_append]
    rintro (h | h)
    · exact Or.inl (ihl h)
    · exact Or.inr (ihr h)
  | SubNode l r ihl ihr =>
    simp only [derivative, var_names, List.mem_append]
    rintro (h | h)
    · exact Or.inl (ihl h)
    · exact Or.inr (ihr h)
  | MulNode l r ihl ihr =>
    simp only [derivative, var_names, List.mem_append]
    rintro ((h | h) | (h | h))
    · exact Or.inl (ihl h)
    · exact Or.inr h
    · exact Or.inl h
    · exact Or.inr (ihr h)
  | DivNode l r ihl ihr =>
    simp only [derivative, var_names, List.mem_append]
    rintro (((h | h) | (h | h)) | (h | h))
    · exact Or.inl (ihl h)
    · exact Or.inr h
    · exact Or.inl h
    · exact Or.inr (ihr h)
    · exact Or.inr h
    · exact Or.inr h

/-- C8: every variable name that occurs in `derivative e v` occurs in `e`. -/
theorem var_names_derivative {α : Type} [Zero α] [One α] (e : ExprNode α) (v n : String) :
    n ∈ var_names (derivative e v) → n ∈ var_names e :=
  mem_var_names_of_mem_derivative e v n

theorem var_names_derivative_witness :
    "y" ∈ var_names (derivative (MulNode (VariableNode "y") (VariableNode "x") : ExprNode ℚ) "x") ∧
    "y" ∈ var_names (MulNode (VariableNode "y") (VariableNode "x") : ExprNode ℚ) :=
  ⟨by simp [derivative, var_names],
    var_names_derivative (MulNode (VariableNode "y") (VariableNode "x") : ExprNode ℚ) "x" "y"
      (by simp [derivative, var_names])⟩

/-! ## Differentiation is correct over the real numbers -/

/-- C1: over the real numbers, let the symbol table bind every variable of `e`, let it
bind `v` to `x0`, and let every `DivNode` of `e` have a denominator that evaluates to a
non-zero number. Then `e` evaluates to a number `f x` whenever `v` is set to `x`, the
tree `derivative e v` evaluates to a number `d`, and `f` has derivative `d` at `x0`. -/
theorem derivative_correct (e : ExprNode ℝ) (v : String) (t : SymbolTable ℝ) (x0 : ℝ)
    (hb : ∀ n ∈ var_names e, ∃ x, find t n = some x) (hv : find t v = some x0)
    (hd : denominators_nonzero t e) :
    ∃ f : ℝ → ℝ, (∀ x, eval (set_value v x t) e = some (f x)) ∧
      ∃ d, eval t (derivative e v) = some d ∧ HasDerivAt f d x0 := by
  have key : ∀ e : ExprNode ℝ, (∀ n ∈ var_names e, ∃ x, find t n = some x) →
      denominators_nonzero t e →
      ∃ f : ℝ → ℝ, (∀ x, eval (set_value v x t) e = some (f x)) ∧ eval t e = some (f x0) ∧
        ∃ d, eval t (derivative e v) = some d ∧ HasDerivAt f d x0 := by
    intro e
    induction e with
    | ConstantNode c =>
      intro _ _
      exact ⟨fun _ => c, fun x => by simp [eval], by simp [eval], 0,
        by simp [derivative, eval], hasDerivAt_const x0 c⟩
    | VariableNode m =>
      intro hb _
      by_cases h : v = m
      · subst h
        refine ⟨fun x => x, fun x => ?_, by simpa [eval] using hv, 1,
          by simp [derivative, eval], hasDerivAt_id x0⟩
        simp [eval, find_set_value]
      · obtain ⟨y, hy⟩ := hb m (by simp [var_names])
        have h2 : ¬ m = v := fun e => h e.symm
        refine ⟨fun _ => y, fun x => ?_, by simpa [eval] using hy, 0,
          by simp [derivative, eval, h], hasDerivAt_const x0 y⟩
        simp [eval, find_set_value, h2, hy]
    | AddNode l r ihl ihr =>
      intro hb hd
      obtain ⟨fl, hfl, hl0, dl, hdl, hl⟩ :=
        ihl (fun n hn => hb n (by simp [var_names, hn])) hd.1
      obtain ⟨fr, hfr, hr0, dr, hdr, hr⟩ :=
        ihr (fun n hn => hb n (by simp [var_names, hn])) hd.2
      refine ⟨fun x => fl x + fr x, fun x => eval_AddNode_some (hfl x) (hfr x),
        eval_AddNode_some hl0 hr0, dl + dr, ?_, hl.add hr⟩
      rw [derivative]
      exact eval_AddNode_some hdl hdr
    | SubNode l r ihl ihr =>
      intro hb hd
      obtain ⟨fl, hfl, hl0, dl, hdl, hl⟩ :=
        ihl (fun n hn => hb n (by simp [var_names, hn])) hd.1
      obtain ⟨fr, hfr, hr0, dr, hdr, hr⟩ :=
        ihr (fun n hn => hb n (by simp [var_names, hn])) hd.2
      refine ⟨fun x => fl x - fr x, fun x => eval_SubNode_some (hfl x) (hfr x),
        eval_SubNode_some hl0 hr0, dl - dr, ?_, hl.sub hr⟩
      rw [derivative]
      exact eval_SubNode_some hdl hdr
    | MulNode l r ihl ihr =>
      intro hb hd
      obtain ⟨fl, hfl, hl0, dl, hdl, hl⟩ :=
        ihl (fun n hn => hb n (by simp [var_names, hn])) hd.1
      obtain ⟨fr, hfr, hr0, dr, hdr, hr⟩ :=
        ihr (fun n hn => hb n (by simp [var_names, hn])) hd.2
      refine ⟨fun x => fl x * fr x, fun x => eval_MulNode_some (hfl x) (hfr x),
        eval_MulNode_some hl0 hr0, dl * fr x0 + fl x0 * dr, ?_, hl.mul hr⟩
      rw [derivative]
      exact eval_AddNode_some (eval_MulNode_some hdl hr0) (eval_MulNode_some hl0 hdr)
    | DivNode l r ihl ihr =>
      intro hb hd
      obtain ⟨fl, hfl, hl0, dl, hdl, hl⟩ :=
        ihl (fun n hn => hb n (by simp [var_names, hn])) hd.1
      obtain ⟨fr, hfr, hr0, dr, hdr, hr⟩ :=
        ihr (fun n hn => hb n (by simp [var_names, hn])) hd.2.1
      obtain ⟨b, hb1, hb2⟩ := hd.2.2
      have hne : fr x0 ≠ 0 := by
        rw [hr0] at hb1
        cases hb1
        exact hb2
      refine ⟨fun x => fl x / fr x, fun x => eval_DivNode_some (hfl x) (hfr x),
        eval_DivNode_some hl0 hr0, (dl * fr x0 - fl x0 * dr) / (fr x0 * fr x0), ?_, ?_⟩
      · rw [derivative]
        exact eval_DivNode_some
          (eval_SubNode_some (eval_MulNode_some hdl hr0) (eval_MulNode_some hl0 hdr))
          (eval_MulNode_some hr0 hr0)
      · have h := hl.div hr hne
        rw [pow_two] at h
        exact h
  obtain ⟨f, hf, _, d, hd1, hd2⟩ := key e hb hd
  exact ⟨f, hf, d, hd1, hd2⟩

theorem derivative_correct_witness :
    (∀ n ∈ var_names (DivNode (VariableNode "x") (ConstantNode 2) : ExprNode ℝ),
      ∃ x, find [("x", (10 : ℝ))] n = some x) ∧
    find [("x", (10 : ℝ))] "x" = some 10 ∧
    denominators_nonzero [("x", (10 : ℝ))] (DivNode (VariableNode "x") (ConstantNode 2)) ∧
    ∃ f : ℝ → ℝ,
      (∀ x, eval (set_value "x" x [("x", (10 : ℝ))])
        (DivNode (VariableNode "x") (ConstantNode 2)) = some (f x)) ∧
      ∃ d, eval [("x", (10 : ℝ))]
        (derivative (DivNode (VariableNode "x") (ConstantNode 2)) "x") = some d ∧
        HasDerivAt f d 10 :=
  ⟨by simp [var_names, find], by simp [find], by simp [denominators_nonzero, eval],
    derivative_correct (DivNode (VariableNode "x") (ConstantNode 2)) "x" [("x", (10 : ℝ))] 10
      (by simp [var_names, find]) (by simp [find]) (by simp [denominators_nonzero, eval])⟩

/-! ## Derivative of a tree that does not mention the variable -/

/-- C10, as stated, fails: with `x` bound to `10`, the derivative of
`DivNode (VariableNode "x") (ConstantNode 2)` with respect to `"x"` does not evaluate to
`0.25`. -/
theorem quotient_check_not_quarter :
    eval [("x", (10 : ℚ))] (derivative (DivNode (VariableNode "x") (ConstantNode 2)) "x")
      ≠ some (1 / 4) := by
  norm_num [eval, derivative, find]

/-- C10, amended: with `x` bound to `10`, the derivative of
`DivNode (VariableNode "x") (ConstantNode 2)` with respect to `"x"` is the tree
`(1 * 2 - x * 0) / (2 * 2)` and evaluates to `2 / 4 = 0.5`. -/
theorem quotient_check_half :
    derivative (DivNode (VariableNode "x") (ConstantNode (2 : ℚ))) "x" =
      DivNode
        (SubNode (MulNode (ConstantNode 1) (ConstantNode 2))
          (MulNode (VariableNode "x") (ConstantNode 0)))
        (MulNode (ConstantNode 2) (ConstantNode 2)) ∧
    eval [("x", (10 : ℚ))] (derivative (DivNode (VariableNode "x") (ConstantNode 2)) "x")
      = some (1 / 2) := by
  refine ⟨by simp [derivative], by norm_num [eval, derivative, find]⟩

/-! ## Sum and difference rule on values -/

/-- Over a symbol table that binds every variable of `e`, the derivative of `e` evaluates
to a number. -/
theorem eval_derivative_some_of_bound {α : Type} [Add α] [Sub α] [Mul α] [Div α] [Zero α]
    [One α] (t : SymbolTable α) (e : ExprNode α) (v : String)
    (hb : ∀ n ∈ var_names e, ∃ x, find t n = some x) :
    ∃ d, eval t (derivative e v) = some d :=
  eval_some_of_bound t (derivative e v) (fun n hn => hb n (mem_var_names_of_mem_derivative e v n hn))

/-- C11: over a symbol table that binds every variable of `a` and of `b`, the derivatives
of `a` and `b` evaluate to numbers `da` and `db`, the derivative of `AddNode a b` evaluates
to `da + db` and the derivative of `SubNode a b` to `da - db`. -/
theorem eval_derivative_AddNode_SubNode {α : Type} [Add α] [Sub α] [Mul α] [Div α] [Zero α]
    [One α] (t : SymbolTable α) (a b : ExprNode α) (v : String)
    (ha : ∀ n ∈ var_names a, ∃ x, find t n = some x)
    (hb : ∀ n ∈ var_names b, ∃ x, find t n = some x) :
    ∃ da db, eval t (derivative a v) = some da ∧ eval t (derivative b v) = some db ∧
      eval t (derivative (AddNode a b) v) = some (da + db) ∧
      eval t (derivative (SubNode a b) v) = some (da - db) := by
  obtain ⟨da, hda⟩ := eval_derivative_some_of_bound t a v ha
  obtain ⟨db, hdb⟩ := eval_derivative_some_of_bound t b v hb
  refine ⟨da, db, hda, hdb, ?_, ?_⟩
  · rw [derivative]
    exact eval_AddNode_some hda hdb
  · rw [derivative]
    exact eval_SubNode_some hda hdb

theorem eval_derivative_AddNode_SubNode_witness :
    (∀ n ∈ var_names (MulNode (VariableNode "x") (VariableNode "x") : ExprNode ℚ),
      ∃ x, find [("x", (3 : ℚ)), ("y", 5)] n = some x) ∧
    (∀ n ∈ var_names (VariableNode "y" : ExprNode ℚ),
      ∃ x, find [("x", (3 : ℚ)), ("y", 5)] n = some x) ∧
    ∃ da db : ℚ,
      eval [("x", (3 : ℚ)), ("y", 5)]
        (derivative (MulNode (VariableNode "x") (VariableNode "x")) "x") = some da ∧
      eval [("x", (3 : ℚ)), ("y", 5)] (derivative (VariableNode "y") "x") = some db ∧
      eval [("x", (3 : ℚ)), ("y", 5)]
        (derivative (AddNode (MulNode (VariableNode "x") (VariableNode "x"))
          (VariableNode "y")) "x") = some (da + db) ∧
      eval [("x", (3 : ℚ)), ("y", 5)]
        (derivative (SubNode (MulNode (VariableNode "x") (VariableNode "x"))
          (VariableNode "y")) "x") = some (da - db) :=
  ⟨by simp [var_names, find], by simp [var_names, find],
    eval_derivative_AddNode_SubNode [("x", (3 : ℚ)), ("y", 5)]
      (MulNode (VariableNode "x") (VariableNode "x")) (VariableNode "y") "x"
      (by simp [var_names, find]) (by simp [var_names, find])⟩

/-! ## The symbol table -/

/-- C14: after `set_value n x`, the variable `n` evaluates to `x`, whatever the table held
before, and every variable `m` different from `n` evaluates as before (to the same number,
or still without a binding). -/
theorem eval_set_value {α : Type} [Add α] [Sub α] [Mul α] [Div α] (t : SymbolTable α)
    (n m : String) (x : α) (hm : m ≠ n) :
    eval (set_value n x t) (VariableNode n) = some x ∧
    eval (set_value n x t) (VariableNode m) = eval t (VariableNode m) ∧
    find (set_value n x t) m = find t m := by
  simp [eval, find_set_value, hm]

theorem eval_set_value_witness :
    "Yellow" ≠ "Xray" ∧
    (eval (set_value "Xray" 7 [("Xray", (1 : ℚ))]) (VariableNode "Xray") = some 7 ∧
      eval (set_value "Xray" 7 [("Xray", (1 : ℚ))]) (VariableNode "Yellow") =
        eval [("Xray", (1 : ℚ))] (VariableNode "Yellow") ∧
      find (set_value "Xray" 7 [("Xray", (1 : ℚ))]) "Yellow" =
        find [("Xray", (1 : ℚ))] "Yellow") :=
  ⟨by decide, eval_set_value [("Xray", (1 : ℚ))] "Xray" "Yellow" 7 (by decide)⟩

/-! ## The tree of `main` and the numeric checks -/

/-- C15: under the symbol table built by the three `set_value` calls of `main`, the tree of
`main` evaluates to `2.3 * 1.0 + 2.0 * (3.0 - 1.0)` in every arithmetic, and in exact
arithmetic this number is `6.3`. -/
theorem eval_main_node {α : Type} [Add α] [Sub α] [Mul α] [Div α] [OfScientific α] :
    main_symbol_table α = [("Xray", 1.0), ("Yellow", 2.0), ("Zebra", 3.0)] ∧
    eval (main_symbol_table α) (main_node α) = some (2.3 * 1.0 + 2.0 * (3.0 - 1.0)) ∧
    eval (main_symbol_table ℚ) (main_node ℚ) = some 6.3 := by
  refine ⟨by simp [main_symbol_table, set_value], ?_, ?_⟩
  · simp [eval, main_symbol_table, main_node, set_value, find]
  · simp [eval, main_symbol_table, main_node, set_value, find]
    norm_num

/-- C16: with `x` bound to `3`, the derivative of `MulNode (VariableNode "x")
(VariableNode "x")` with respect to `"x"` is the tree `1 * x + x * 1` and evaluates to
`6`. -/
theorem product_check :
    derivative (MulNode (VariableNode "x") (VariableNode "x") : ExprNode ℚ) "x" =
      AddNode (MulNode (ConstantNode 1) (VariableNode "x"))
        (MulNode (VariableNode "x") (ConstantNode 1)) ∧
    eval [("x", (3 : ℚ))] (derivative (MulNode (VariableNode "x") (VariableNode "x")) "x")
      = some 6 := by
  refine ⟨by simp [derivative], ?_⟩
  simp [eval, derivative, find]
  norm_num

/-- C17: over a symbol table that binds every variable of `e`, both `e` and its derivative
with respect to any `v` evaluate to a number: no run dereferences `end()`. -/
theorem eval_defined_of_bound {α : Type} [Add α] [Sub α] [Mul α] [Div α] [Zero α] [One α]
    (t : SymbolTable α) (e : ExprNode α) (v : String)
    (hb : ∀ n ∈ var_names e, ∃ x, find t n = some x) :
    (∃ a, eval t e = some a) ∧ ∃ d, eval t (derivative e v) = some d :=
  ⟨eval_some_of_bound t e hb, eval_derivative_some_of_bound t e v hb⟩

theorem eval_defined_of_bound_witness :
    (∀ n ∈ var_names (main_node ℚ), ∃ x, find (main_symbol_table ℚ) n = some x) ∧
    ((∃ a, eval (main_symbol_table ℚ) (main_node ℚ) = some a) ∧
      ∃ d, eval (main_symbol_table ℚ) (derivative (main_node ℚ) "Xray") = some d) :=
  ⟨by simp [main_node, var_names, main_symbol_table, set_value, find],
    eval_defined_of_bound (main_symbol_table ℚ) (main_node ℚ) "Xray"
      (by simp [main_node, var_names, main_symbol_table, set_value, find])⟩

/-- C18: a constant evaluates to its value under every symbol table, the empty one
included. -/
theorem eval_ConstantNode {α : Type} [Add α] [Sub α] [Mul α] [Div α] (c : α)
    (t : SymbolTable α) :
    eval t (ConstantNode c) = some c ∧ eval ([] : SymbolTable α) (ConstantNode c) = some c := by
  simp [eval]

/-! ## Printing -/

/-- C12: `AddNode`, `SubNode` and `MulNode` print as `(`, left operand, `+`, `-` or `*`,
right operand, `)`; a variable prints as its name; `DivNode` prints with `*`, so exactly as
the `MulNode` of the same operands. When the stream writes the constant `2.3` as `2.3`, the
tree of `main` prints as `((2.3*Xray)+(Yellow*(Zebra-Xray)))`. -/
theorem print_rules {α : Type} [OfScientific α] (fmt : α → String) (l r : ExprNode α)
    (name : String) (hfmt : fmt 2.3 = "2.3") :
    print fmt (AddNode l r) = "(" ++ print fmt l ++ "+" ++ print fmt r ++ ")" ∧
    print fmt (SubNode l r) = "(" ++ print fmt l ++ "-" ++ print fmt r ++ ")" ∧
    print fmt (MulNode l r) = "(" ++ print fmt l ++ "*" ++ print fmt r ++ ")" ∧
    print fmt (VariableNode name) = name ∧
    print fmt (DivNode l r) = "(" ++ print fmt l ++ "*" ++ print fmt r ++ ")" ∧
    print fmt (DivNode l r) = print fmt (MulNode l r) ∧
    print fmt (main_node α) = "((2.3*Xray)+(Yellow*(Zebra-Xray)))" := by
  refine ⟨by rw [print], by rw [print], by rw [print], by rw [print], by rw [print],
    by rw [print, print], ?_⟩
  simp only [main_node, print, hfmt]
  decide

theorem print_rules_witness :
    (fun _ : ℚ => "2.3") 2.3 = "2.3" ∧
    (print (fun _ : ℚ => "2.3") (AddNode (VariableNode "a") (VariableNode "b")) =
        "(" ++ print (fun _ : ℚ => "2.3") (VariableNode "a") ++ "+" ++
          print (fun _ : ℚ => "2.3") (VariableNode "b") ++ ")" ∧
      print (fun _ : ℚ => "2.3") (SubNode (VariableNode "a") (VariableNode "b")) =
        "(" ++ print (fun _ : ℚ => "2.3") (VariableNode "a") ++ "-" ++
          print (fun _ : ℚ => "2.3") (VariableNode "b") ++ ")" ∧
      print (fun _ : ℚ => "2.3") (MulNode (VariableNode "a") (VariableNode "b")) =
        "(" ++ print (fun _ : ℚ => "2.3") (VariableNode "a") ++ "*" ++
          print (fun _ : ℚ => "2.3") (VariableNode "b") ++ ")" ∧
      print (fun _ : ℚ => "2.3") (VariableNode "c") = "c" ∧
      print (fun _ : ℚ => "2.3") (DivNode (VariableNode "a") (VariableNode "b")) =
        "(" ++ print (fun _ : ℚ => "2.3") (VariableNode "a") ++ "*" ++
          print (fun _ : ℚ => "2.3") (VariableNode "b") ++ ")" ∧
      print (fun _ : ℚ => "2.3") (DivNode (VariableNode "a") (VariableNode "b")) =
        print (fun _ : ℚ => "2.3") (MulNode (VariableNode "a") (VariableNode "b")) ∧
      print (fun _ : ℚ => "2.3") (main_node ℚ) = "((2.3*Xray)+(Yellow*(Zebra-Xray)))") :=
  ⟨rfl, print_rules (fun _ : ℚ => "2.3") (VariableNode "a") (VariableNode "b") "c" rfl⟩

/-! ## Parentheses of the printed text -/

theorem scan_parens_paren_free (cs rest : List Char) (h : ∀ c ∈ cs, c ≠ '(' ∧ c ≠ ')')
    (level deepest : Nat) :
    scan_parens (cs ++ rest) level deepest = scan_parens rest level deepest := by
  induction cs with
  | nil => rfl
  | cons c cs ih =>
    have hc := h c (List.mem_cons_self c cs)
    have ih2 := ih (fun d hd => h d (List.mem_cons_of_mem c hd))
    simp [scan_parens, hc.1, hc.2, ih2]

/-- Scanning the text of a binary node: one level is opened around the two operands. -/
theorem scan_parens_binary (op : Char) (hop : op ≠ '(' ∧ op ≠ ')') (L R : List Char)
    (dl dr : Nat)
    (hL : ∀ rest level deepest, level ≤ deepest →
      scan_parens (L ++ rest) level deepest = scan_parens rest level (max deepest (level + dl)))
    (hR : ∀ rest level deepest, level ≤ deepest →
      scan_parens (R ++ rest) level deepest = scan_parens rest level (max deepest (level + dr)))
    (rest : List Char) (level deepest : Nat) (hle : level ≤ deepest) :
    scan_parens ('(' :: (L ++ op :: (R ++ ')' :: rest))) level deepest =
      scan_parens rest level (max deepest (level + (1 + max dl dr))) := by
  have h1 : scan_parens ('(' :: (L ++ op :: (R ++ ')' :: rest))) level deepest =
      scan_parens (L ++ op :: (R ++ ')' :: rest)) (level + 1) (max deepest (level + 1)) := by
    simp [scan_parens]
  rw [h1, hL _ _ _ (by omega)]
  have h2 : ∀ d, scan_parens (op :: (R ++ ')' :: rest)) (level + 1) d =
      scan_parens (R ++ ')' :: rest) (level + 1) d := by
    intro d
    simp [scan_parens, hop.1, hop.2]
  rw [h2, hR _ _ _ (by omega)]
  have h3 : ∀ d, scan_parens (')' :: rest) (level + 1) d = scan_parens rest level d := by
    intro d
    simp [scan_parens]
  rw [h3]
  congr 1
  omega

theorem scan_parens_print {α : Type} (fmt : α → String) (e : ExprNode α)
    (h : leaves_paren_free fmt e) (rest : List Char) (level deepest : Nat)
    (hle : level ≤ deepest) :
    scan_parens ((print fmt e).data ++ rest) level deepest =
      scan_parens rest level (max deepest (level + depth e)) := by
  induction e generalizing rest level deepest with
  | ConstantNode c =>
    have hm : max deepest (level + 0) = deepest := by omega
    rw [print, depth, hm]
    exact scan_parens_paren_free (fmt c).data rest h level deepest
  | VariableNode n =>
    have hm : max deepest (level + 0) = deepest := by omega
    rw [print, depth, hm]
    exact scan_parens_paren_free n.data rest h level deepest
  | AddNode l r ihl ihr =>
    have key := scan_parens_binary '+' (by decide) (print fmt l).data (print fmt r).data
      (depth l) (depth r) (fun rest level deepest hle => ihl h.1 rest level deepest hle)
      (fun rest level deepest hle => ihr h.2 rest level deepest hle) rest level deepest hle
    simpa [print, depth, String.data_append] using key
  | SubNode l r ihl ihr =>
    have key := scan_parens_binary '-' (by decide) (print fmt l).data (print fmt r).data
      (depth l) (depth r) (fun rest level deepest hle => ihl h.1 rest level deepest hle)
      (fun rest level deepest hle => ihr h.2 rest level deepest hle) rest level deepest hle
    simpa [print, depth, String.data_append] using key
  | MulNode l r ihl ihr =>
    have key := scan_parens_binary '*' (by decide) (print fmt l).data (print fmt r).data
      (depth l) (depth r) (fun rest level deepest hle => ihl h.1 rest level deepest hle)
      (fun rest level deepest hle => ihr h.2 rest level deepest hle) rest level deepest hle
    simpa [print, depth, String.data_append] using key
  | DivNode l r ihl ihr =>
    have key := scan_parens_binary '*' (by decide) (print fmt l).data (print fmt r).data
      (depth l) (depth r) (fun rest level deepest hle => ihl h.1 rest level deepest hle)
      (fun rest level deepest hle => ihr h.2 rest level deepest hle) rest level deepest hle
    simpa [print, depth, String.data_append] using key

/-- C13, as stated, fails: the leaf `VariableNode "("` has depth `0` and prints as `(`, a
text whose parentheses are not balanced; and the leaf `VariableNode "(a)"` prints a
balanced text with one level of parentheses. -/
theorem nesting_print_fails :
    nesting (print (fun _ : ℚ => "0") (VariableNode "(")) ≠
      some (depth (VariableNode "(" : ExprNode ℚ)) ∧
    nesting (print (fun _ : ℚ => "0") (VariableNode "(a)")) = some 1 ∧
    depth (VariableNode "(a)" : ExprNode ℚ) = 0 := by
  decide

/-- C13, amended: when no variable name of `e` and no text of a constant of `e` has a
parenthesis, the parentheses of the printed text are balanced and their maximum nesting
level is the depth of `e`. -/
theorem nesting_print {α : Type} (fmt : α → String) (e : ExprNode α)
    (h : leaves_paren_free fmt e) : nesting (print fmt e) = some (depth e) := by
  have key := scan_parens_print fmt e h [] 0 0 (Nat.le_refl 0)
  simpa [nesting, scan_parens] using key

theorem nesting_print_witness :
    leaves_paren_free (fun _ : ℚ => "2.3") (main_node ℚ) ∧
    nesting (print (fun _ : ℚ => "2.3") (main_node ℚ)) = some (depth (main_node ℚ)) ∧
    depth (main_node ℚ) = 3 :=
  ⟨by simp [leaves_paren_free, main_node, paren_free],
    nesting_print (fun _ : ℚ => "2.3") (main_node ℚ)
      (by simp [leaves_paren_free, main_node, paren_free]),
    by decide⟩

/-! ## Size and depth of the derivative -/

theorem size_le_of_derivative {α : Type} [Zero α] [One α] (e : ExprNode α) (v : String) :
    size e ≤ size (derivative e v) := by
  induction e with
  | ConstantNode c => simp [derivative, size]
  | VariableNode m => by_cases h : v = m <;> simp [derivative, size, h]
  | AddNode l r ihl ihr => simp only [derivative, size]; omega
  | SubNode l r ihl ihr => simp only [derivative, size]; omega
  | MulNode l r ihl ihr => simp only [derivative, size]; omega
  | DivNode l r ihl ihr => simp only [derivative, size]; omega

theorem size_lt_of_derivative {α : Type} [Zero α] [One α] (e : ExprNode α) (v : String)
    (h : has_MulNode_or_DivNode e = true) : size e < size (derivative e v) := by
  induction e with
  | ConstantNode c => simp [has_MulNode_or_DivNode] at h
  | VariableNode m => simp [has_MulNode_or_DivNode] at h
  | AddNode l r ihl ihr =>
    have hl := size_le_of_derivative l v
    have hr := size_le_of_derivative r v
    simp only [has_MulNode_or_DivNode, Bool.or_eq_true] at h
    simp only [derivative, size]
    rcases h with h | h
    · have := ihl h
      omega
    · have := ihr h
      omega
  | SubNode l r ihl ihr =>
    have hl := size_le_of_derivative l v
    have hr := size_le_of_derivative r v
    simp only [has_MulNode_or_DivNode, Bool.or_eq_true] at h
    simp only [derivative, size]
    rcases h with h | h
    · have := ihl h
      omega
    · have := ihr h
      omega
  | MulNode l r _ _ => simp only [derivative, size]; omega
  | DivNode l r _ _ => simp only [derivative, size]; omega

/-- C19: the derivative has at least as many nodes as the tree, strictly more when the
tree has a `MulNode` or a `DivNode`, and for `MulNode l r` exactly
`3 + size l' + size r' + size l + size r` with `l'`, `r'` the derivatives of `l`, `r`. -/
theorem size_derivative {α : Type} [Zero α] [One α] (e l r : ExprNode α) (v : String) :
    size e ≤ size (derivative e v) ∧
    (has_MulNode_or_DivNode e = true → size e < size (derivative e v)) ∧
    size (derivative (MulNode l r) v) =
      3 + size (derivative l v) + size (derivative r v) + size l + size r := by
  refine ⟨size_le_of_derivative e v, size_lt_of_derivative e v, ?_⟩
  simp only [derivative, size]
  omega

theorem size_derivative_witness :
    has_MulNode_or_DivNode (main_node ℚ) = true ∧
    size (main_node ℚ) < size (derivative (main_node ℚ) "Xray") ∧
    size (main_node ℚ) = 9 :=
  ⟨by decide,
    (size_derivative (main_node ℚ) (VariableNode "x") (VariableNode "x") "Xray").2.1
      (by decide),
    by decide⟩

theorem depth_le_thrice {α : Type} [Zero α] [One α] (e : ExprNode α) (v : String) :
    depth (derivative e v) ≤ 3 * depth e := by
  induction e with
  | ConstantNode c => simp [derivative, depth]
  | VariableNode m => by_cases h : v = m <;> simp [derivative, depth, h]
  | AddNode l r ihl ihr => simp only [derivative, depth]; omega
  | SubNode l r ihl ihr => simp only [derivative, depth]; omega
  | MulNode l r ihl ihr => simp only [derivative, depth]; omega
  | DivNode l r ihl ihr => simp only [derivative, depth]; omega

theorem depth_le_twice_of_no_DivNode {α : Type} [Zero α] [One α] (e : ExprNode α)
    (v : String) (h : has_DivNode e = false) : depth (derivative e v) ≤ 2 * depth e := by
  induction e with
  | ConstantNode c => simp [derivative, depth]
  | VariableNode m => by_cases h : v = m <;> simp [derivative, depth, h]
  | AddNode l r ihl ihr =>
    simp only [has_DivNode, Bool.or_eq_false_iff] at h
    have := ihl h.1
    have := ihr h.2
    simp only [derivative, depth]
    omega
  | SubNode l r ihl ihr =>
    simp only [has_DivNode, Bool.or_eq_false_iff] at h
    have := ihl h.1
    have := ihr h.2
    simp only [derivative, depth]
    omega
  | MulNode l r ihl ihr =>
    simp only [has_DivNode, Bool.or_eq_false_iff] at h
    have := ihl h.1
    have := ihr h.2
    simp only [derivative, depth]
    omega
  | DivNode l r _ _ => simp [has_DivNode] at h

theorem depth_div_chain {α : Type} (k : Nat) : depth (div_chain k : ExprNode α) = k := by
  induction k with
  | zero => simp [div_chain, depth]
  | succ k ih => simp only [div_chain, depth, ih]; omega

theorem depth_div_chain_derivative {α : Type} [Zero α] [One α] (k : Nat) (v : String) :
    depth (derivative (div_chain k : ExprNode α) v) = 3 * k := by
  induction k with
  | zero => by_cases h : v = "x" <;> simp [div_chain, derivative, depth, h]
  | succ k ih =>
    have hk := depth_div_chain (α := α) k
    have hx : depth (derivative (VariableNode "x" : ExprNode α) v) = 0 := by
      by_cases h : v = "x" <;> simp [derivative, depth, h]
    simp only [div_chain, derivative, depth] at *
    omega

/-- C20: the depth of the derivative is at most three times the depth of the tree, at most
twice when the tree has no `DivNode`; the left-nested chain of `k` `DivNode`s has depth `k`
and its derivative has depth `3 * k`. -/
theorem depth_derivative {α : Type} [Zero α] [One α] (e : ExprNode α) (v : String)
    (k : Nat) :
    depth (derivative e v) ≤ 3 * depth e ∧
    (has_DivNode e = false → depth (derivative e v) ≤ 2 * depth e) ∧
    depth (div_chain k : ExprNode α) = k ∧
    depth (derivative (div_chain k : ExprNode α) v) = 3 * depth (div_chain k : ExprNode α) := by
  refine ⟨depth_le_thrice e v, depth_le_twice_of_no_DivNode e v, depth_div_chain k, ?_⟩
  rw [depth_div_chain_derivative, depth_div_chain]

theorem depth_derivative_witness :
    has_DivNode (main_node ℚ) = false ∧
    depth (derivative (main_node ℚ) "Xray") ≤ 2 * depth (main_node ℚ) ∧
    depth (main_node ℚ) = 3 :=
  ⟨by decide, (depth_derivative (main_node ℚ) "Xray" 0).2.1 (by decide), by decide⟩

end ExpressionTree
